import Mathlib

/-!
Verification of the asynchronous batched-deletion subsystem of the
`url-shortener` repository (`internal/worker/delete_worker.go`).

The subsystem is a pool of workers pulling `DeleteRequest`s from a shared
bounded channel.  Each worker owns a local batch (`map[string][]string`),
a running URL count, and an idle timer; it flushes the batch to the
`DeleteService.DeleteUserURLs` capability when the count reaches the
configured batch size, when the idle timer fires, when the channel is
closed, or when the pool context is cancelled.

The shallow embedding below models one worker's event loop as a
deterministic step function over an explicit event trace, the Go map as an
association list (insertion-ordered, which is immaterial for the multiset
and per-key properties proved here), the `time.Timer` as an `Option Nat`
recording the arming instant, and the deletion capability as a function
`String → List String → Except String Unit` whose result is observed but —
as in the source — never influences control flow beyond logging.
-/

namespace DeleteWorker

/-- `DeleteRequest` from delete_worker.go: a user id and a list of URL ids. -/
structure DeleteRequest where
  userID : String
  urlIDs : List String
  deriving Repr, DecidableEq

/-- A single call made to the deletion capability `DeleteService.DeleteUserURLs`:
the key (user id) and the items (URL ids) passed. -/
abbrev Call := String × List String

/-- The deletion capability: `DeleteUserURLs(userID, urlIDs) error`.
`Except.ok` models a nil error, `Except.error` a non-nil one. -/
abbrev DeleteService := String → List String → Except String Unit

/-- Per-worker mutable state of the loop in `DeleteWorkerPool.worker`:
the batch map `userID -> []urlIDs` (modelled as an association list whose
entries appear in first-arrival order), the running count `totalURLs`, and
the idle timer (`some t` = armed at instant `t`, `none` = not armed /
timer channel nil). -/
structure WorkerState where
  batch : List (String × List String)
  totalURLs : Nat
  timer : Option Nat
  deriving Repr, DecidableEq

/-- The state a worker starts with: empty batch, zero count, no timer. -/
def WorkerState.init : WorkerState := ⟨[], 0, none⟩

/-- `batch[req.UserID] = append(batch[req.UserID], req.URLIDs...)` on a Go
map: append to the existing entry, or insert a new entry (also when
`items` is empty — the assignment creates the key). -/
def mergeReq (b : List (String × List String)) (k : String) (items : List String) :
    List (String × List String) :=
  match b with
  | [] => [(k, items)]
  | (k', l) :: rest =>
      if k' = k then (k', l ++ items) :: rest
      else (k', l) :: mergeReq rest k items

/-- The flush loop body of `processBatch`: for every key in the batch call
`DeleteUserURLs`; a non-nil error is logged and swallowed, the loop
continues with the remaining keys either way.  Returns the sequence of
calls made. -/
def flushKeys (svc : DeleteService) : List (String × List String) → List Call
  | [] => []
  | (userID, urlIDs) :: rest =>
      match svc userID urlIDs with
      | Except.error _ => (userID, urlIDs) :: flushKeys svc rest
      | Except.ok _ => (userID, urlIDs) :: flushKeys svc rest

/-- `processBatch` from delete_worker.go: if the batch is empty, return at
once; otherwise call the capability for every key, then clear the batch
and reset `totalURLs` to 0 unconditionally. -/
def processBatch (svc : DeleteService) (s : WorkerState) : List Call × WorkerState :=
  if s.batch.isEmpty then ([], s)
  else (flushKeys svc s.batch, { s with batch := [], totalURLs := 0 })

/-- `startOrResetTimer` at instant `now`: the timer is (re)armed; its
channel becomes live.  We record the arming instant. -/
def startOrResetTimer (now : Nat) (s : WorkerState) : WorkerState :=
  { s with timer := some now }

/-- `stopTimer`: the timer is stopped and drained; its channel becomes nil. -/
def stopTimer (s : WorkerState) : WorkerState :=
  { s with timer := none }

/-- The three event sources of the worker's `select`, plus closure of the
request channel: context cancellation, a request delivered from the
channel, the channel found closed, and the idle timer firing. -/
inductive WorkerEvent where
  | ctxDone
  | recv (req : DeleteRequest)
  | chanClosed
  | timerFire
  deriving Repr, DecidableEq

/-- Result of one iteration of the worker loop: the capability calls made,
the successor state, and whether the loop returned. -/
structure StepResult where
  calls : List Call
  state : WorkerState
  exited : Bool
  deriving Repr, DecidableEq

/-- One iteration of the `for { select { ... } }` loop in
`DeleteWorkerPool.worker`, at instant `now`, with batch-size threshold
`batchSize`.  A `timerFire` event with a nil timer channel cannot be
selected in Go; it is modelled as a no-op. -/
def workerStep (batchSize : Nat) (svc : DeleteService) (now : Nat)
    (s : WorkerState) : WorkerEvent → StepResult
  | WorkerEvent.ctxDone =>
      let p := processBatch svc s
      ⟨p.1, stopTimer p.2, true⟩
  | WorkerEvent.chanClosed =>
      let p := processBatch svc s
      ⟨p.1, stopTimer p.2, true⟩
  | WorkerEvent.recv req =>
      let batchWasEmpty := s.batch.isEmpty
      let s1 : WorkerState :=
        { s with batch := mergeReq s.batch req.userID req.urlIDs,
                 totalURLs := s.totalURLs + req.urlIDs.length }
      if s1.totalURLs ≥ batchSize then
        let p := processBatch svc s1
        if p.2.batch.isEmpty then ⟨p.1, stopTimer p.2, false⟩
        else ⟨p.1, startOrResetTimer now p.2, false⟩
      else if batchWasEmpty then ⟨[], startOrResetTimer now s1, false⟩
      else ⟨[], s1, false⟩
  | WorkerEvent.timerFire =>
      match s.timer with
      | none => ⟨[], s, false⟩
      | some _ =>
          let p := processBatch svc s
          ⟨p.1, stopTimer p.2, false⟩

/-- Run the worker loop over an event trace, numbering instants from `n`;
a terminal event (cancellation or channel closure) stops the run. -/
def runWorkerAux (batchSize : Nat) (svc : DeleteService) :
    List WorkerEvent → Nat → WorkerState → List Call × WorkerState
  | [], _, s => ([], s)
  | e :: es, n, s =>
      let r := workerStep batchSize svc n s e
      if r.exited then (r.calls, r.state)
      else
        let rest := runWorkerAux batchSize svc es (n + 1) r.state
        (r.calls ++ rest.1, rest.2)

/-- Run one worker from its initial state over an event trace. -/
def runWorker (batchSize : Nat) (svc : DeleteService) (es : List WorkerEvent) :
    List Call × WorkerState :=
  runWorkerAux batchSize svc es 0 WorkerState.init

/-! ### Item accounting helpers -/

/-- `true` for the events a worker sees during normal (non-shutdown)
operation: deliveries from the open channel and idle-timer fires. -/
def isNormal : WorkerEvent → Bool
  | WorkerEvent.recv _ => true
  | WorkerEvent.timerFire => true
  | _ => false

/-- The requests delivered to a worker along an event trace. -/
def recvReqs : List WorkerEvent → List DeleteRequest
  | [] => []
  | WorkerEvent.recv r :: es => r :: recvReqs es
  | _ :: es => recvReqs es

/-- All URL ids carried by a list of requests, in order. -/
def itemsOfReqs : List DeleteRequest → List String
  | [] => []
  | r :: rs => r.urlIDs ++ itemsOfReqs rs

/-- All URL ids held in a batch (or passed in a list of capability calls). -/
def pairItems : List (String × List String) → List String
  | [] => []
  | p :: ps => p.2 ++ pairItems ps

/-- The capability calls made by a list of workers, each run over its own
event trace. -/
def allCalls (batchSize : Nat) (svc : DeleteService) :
    List (List WorkerEvent) → List Call
  | [] => []
  | t :: ts => (runWorker batchSize svc t).1 ++ allCalls batchSize svc ts

/-- The requests delivered across a list of worker event traces. -/
def allRecv : List (List WorkerEvent) → List DeleteRequest
  | [] => []
  | t :: ts => recvReqs t ++ allRecv ts

/-- Association-list lookup, mirroring Go's `batch[k]` presence check. -/
def lookupKey : List (String × List String) → String → Option (List String)
  | [], _ => none
  | (k', l) :: rest, k => if k' = k then some l else lookupKey rest k

/-- The concatenation, in arrival order, of the item lists of the requests
addressed to key `k`. -/
def keyItems : List DeleteRequest → String → List String
  | [], _ => []
  | r :: rs, k => (if r.userID = k then r.urlIDs else []) ++ keyItems rs k

/-- Items carried by one event (the merged request's URL ids, else none). -/
def eventItems : WorkerEvent → List String
  | WorkerEvent.recv r => r.urlIDs
  | _ => []

/-- The receive-iteration as §4.2 of the spec describes it, without the
source's re-arm branch: after a count-triggered flush the timer is simply
stopped.  Stated from the spec's words, to be compared with `workerStep`
(the source's loop) — their equality shows the source's re-arm branch is
dead code. -/
def workerStepSpecNoRearm (batchSize : Nat) (svc : DeleteService) (now : Nat)
    (s : WorkerState) : WorkerEvent → StepResult
  | WorkerEvent.ctxDone =>
      let p := processBatch svc s
      ⟨p.1, stopTimer p.2, true⟩
  | WorkerEvent.chanClosed =>
      let p := processBatch svc s
      ⟨p.1, stopTimer p.2, true⟩
  | WorkerEvent.recv req =>
      let batchWasEmpty := s.batch.isEmpty
      let s1 : WorkerState :=
        { s with batch := mergeReq s.batch req.userID req.urlIDs,
                 totalURLs := s.totalURLs + req.urlIDs.length }
      if s1.totalURLs ≥ batchSize then
        let p := processBatch svc s1
        ⟨p.1, stopTimer p.2, false⟩
      else if batchWasEmpty then ⟨[], startOrResetTimer now s1, false⟩
      else ⟨[], s1, false⟩
  | WorkerEvent.timerFire =>
      match s.timer with
      | none => ⟨[], s, false⟩
      | some _ =>
          let p := processBatch svc s
          ⟨p.1, stopTimer p.2, false⟩

/-- Merge requests into an existing batch, in order. -/
def mergeAllFrom (b : List (String × List String)) :
    List DeleteRequest → List (String × List String)
  | [] => b
  | r :: rs => mergeAllFrom (mergeReq b r.userID r.urlIDs) rs

/-- Merge a sequence of requests into an initially empty batch, in order —
the accumulation a worker performs between two flushes. -/
def mergeAll (reqs : List DeleteRequest) : List (String × List String) :=
  mergeAllFrom [] reqs

/-! ### Pool-level model: Submit and Shutdown

`Submit` is a `select` over context cancellation and a channel send, with
a non-blocking fast path.  Go `select` semantics: a receive from the done
channel is ready iff the context is cancelled; a send is ready iff the
channel is closed (in which case choosing it panics: "send on closed
channel") or buffer space is free; when several cases are ready one is
chosen uniformly at random; with none ready the first `select`'s `default`
branch falls through to a second, blocking `select`. -/

/-- Possible outcomes of one `Submit` call. `blocked` stands for the
blocking second `select` still waiting (no case ready yet). -/
inductive SubmitOutcome where
  | queued
  | canceled
  | panicked
  | blocked
  deriving Repr, DecidableEq

/-- The set of possible results of `DeleteWorkerPool.Submit` in a pool
state described by `ctxDone` (context cancelled), `chanClosed`
(request channel closed), channel capacity `cap` and buffered contents
`q`: each element is an outcome paired with the channel contents after
the call.  Several elements model Go's uniform choice among ready
`select` cases. -/
def submitResults (ctxDone chanClosed : Bool) (cap : Nat)
    (q : List DeleteRequest) (req : DeleteRequest) :
    List (SubmitOutcome × List DeleteRequest) :=
  (if ctxDone then [(SubmitOutcome.canceled, q)] else []) ++
  (if chanClosed then [(SubmitOutcome.panicked, q)]
   else if q.length < cap then [(SubmitOutcome.queued, q ++ [req])] else []) ++
  (if !ctxDone && !chanClosed && !(q.length < cap)
   then [(SubmitOutcome.blocked, q)] else [])

/-- The coordinator state `Shutdown` manipulates: whether the
`sync.Once` has fired, whether the request channel is closed, and whether
the pool context has been cancelled. -/
structure PoolState where
  onceDone : Bool
  chanClosed : Bool
  cancelled : Bool
  deriving Repr, DecidableEq

/-- A freshly constructed, running pool. -/
def PoolState.running : PoolState := ⟨false, false, false⟩

/-- Error value of `Shutdown`: `context.DeadlineExceeded`. -/
inductive ShutdownError where
  | deadlineExceeded
  deriving Repr, DecidableEq

/-- `DeleteWorkerPool.Shutdown(timeout)`.  Behaviour depends on two facts
about the environment: `drainsByDeadline` — all workers drain and exit
before `timeout` elapses — and `exitsAfterCancel` — after `p.cancel()`
every worker's final flush attempt terminates (false when the deletion
capability stalls forever).  Result `none` means the call never returns:
the Go code blocks on `<-done` after `p.cancel()` with no further bound.
Inside the `sync.Once` body the channel is closed first; on timeout the
context is cancelled and `context.DeadlineExceeded` is returned.  A call
that finds the `Once` already consumed does nothing and returns the
zero-valued `shutdownErr`, i.e. no error. -/
def Shutdown (drainsByDeadline exitsAfterCancel : Bool) (p : PoolState) :
    Option (Option ShutdownError × PoolState) :=
  if p.onceDone then some (none, p)
  else
    let p1 : PoolState := { p with onceDone := true, chanClosed := true }
    if drainsByDeadline then some (none, p1)
    else if exitsAfterCancel then
      some (some ShutdownError.deadlineExceeded, { p1 with cancelled := true })
    else none

/-! ### Basic lemmas -/

/-- The flush loop performs exactly one capability call per batched key, in
batch order, whatever results (nil or non-nil errors) the capability
returns: errors are logged and swallowed, never aborting, retrying or
reordering the remaining keys. -/
theorem flushKeys_eq (svc : DeleteService) (b : List (String × List String)) :
    flushKeys svc b = b := by
  induction b with
  | nil => rfl
  | cons p rest ih =>
      obtain ⟨k, l⟩ := p
      simp only [flushKeys]
      cases svc k l <;> simp [ih]

theorem mergeReq_ne_nil (b : List (String × List String)) (k : String)
    (items : List String) : mergeReq b k items ≠ [] := by
  cases b with
  | nil => simp [mergeReq]
  | cons p rest =>
      obtain ⟨k', l⟩ := p
      by_cases h : k' = k <;> simp [mergeReq, h]

theorem pairItems_append (a b : List (String × List String)) :
    pairItems (a ++ b) = pairItems a ++ pairItems b := by
  induction a with
  | nil => rfl
  | cons p rest ih => simp [pairItems, ih]

theorem pairItems_mergeReq (b : List (String × List String)) (k : String)
    (items : List String) :
    List.Perm (pairItems (mergeReq b k items)) (pairItems b ++ items) := by
  induction b with
  | nil => simp [mergeReq, pairItems]
  | cons p rest ih =>
      obtain ⟨k', l⟩ := p
      by_cases h : k' = k
      · simp only [mergeReq, h, if_pos rfl, pairItems, List.append_assoc]
        exact List.Perm.append_left l (List.perm_append_comm)
      · simp only [mergeReq, h, if_neg h, pairItems, List.append_assoc]
        exact List.Perm.append_left l ih

theorem processBatch_calls (svc : DeleteService) (s : WorkerState) :
    (processBatch svc s).1 = s.batch := by
  unfold processBatch
  by_cases h : s.batch.isEmpty
  · simp [h, List.isEmpty_iff.mp h]
  · simp [h, flushKeys_eq]

theorem processBatch_batch (svc : DeleteService) (s : WorkerState) :
    (processBatch svc s).2.batch = [] ∨ (processBatch svc s).2 = s := by
  unfold processBatch
  by_cases h : s.batch.isEmpty <;> simp [h]

theorem processBatch_batch_of_ne (svc : DeleteService) (s : WorkerState)
    (h : s.batch ≠ []) : (processBatch svc s).2.batch = [] ∧
      (processBatch svc s).2.totalURLs = 0 := by
  unfold processBatch
  simp [List.isEmpty_iff, h]

theorem processBatch_timer (svc : DeleteService) (s : WorkerState) :
    (processBatch svc s).2.timer = s.timer := by
  unfold processBatch
  by_cases h : s.batch.isEmpty <;> simp [h]

theorem workerStep_not_exited (batchSize : Nat) (svc : DeleteService)
    (now : Nat) (s : WorkerState) (e : WorkerEvent) (h : isNormal e = true) :
    (workerStep batchSize svc now s e).exited = false := by
  cases e with
  | ctxDone => simp [isNormal] at h
  | chanClosed => simp [isNormal] at h
  | recv req =>
      simp only [workerStep]
      split
      · split <;> rfl
      · split <;> rfl
  | timerFire =>
      simp only [workerStep]
      cases s.timer <;> simp

theorem workerStep_conservation (batchSize : Nat) (svc : DeleteService)
    (now : Nat) (s : WorkerState) (e : WorkerEvent) (h : isNormal e = true) :
    List.Perm
      (pairItems (workerStep batchSize svc now s e).calls ++
        pairItems (workerStep batchSize svc now s e).state.batch)
      (pairItems s.batch ++ eventItems e) := by
  cases e with
  | ctxDone => simp [isNormal] at h
  | chanClosed => simp [isNormal] at h
  | recv req =>
      simp only [workerStep, eventItems]
      set s1 : WorkerState :=
        { s with batch := mergeReq s.batch req.userID req.urlIDs,
                 totalURLs := s.totalURLs + req.urlIDs.length } with hs1
      by_cases h1 : s1.totalURLs ≥ batchSize
      · have hne : s1.batch ≠ [] := mergeReq_ne_nil _ _ _
        have hb := (processBatch_batch_of_ne svc s1 hne).1
        simp only [h1, if_pos, hb, List.isEmpty_nil, if_true,
          processBatch_calls, stopTimer]
        have : pairItems s1.batch = pairItems (mergeReq s.batch req.userID req.urlIDs) := rfl
        simp only [this, pairItems, List.append_nil]
        exact pairItems_mergeReq s.batch req.userID req.urlIDs
      · simp only [h1, if_neg, if_false]
        by_cases h2 : s.batch.isEmpty
        · simp only [h2, if_true, startOrResetTimer, pairItems, List.nil_append]
          exact pairItems_mergeReq s.batch req.userID req.urlIDs
        · simp only [h2, if_false, pairItems, List.nil_append]
          exact pairItems_mergeReq s.batch req.userID req.urlIDs
  | timerFire =>
      simp only [workerStep, eventItems]
      cases htm : s.timer with
      | none => simp [pairItems]
      | some t =>
          simp only [processBatch_calls, stopTimer]
          by_cases hb : s.batch = []
          · simp [processBatch, hb, pairItems]
          · have := (processBatch_batch_of_ne svc s hb).1
            simp [this, pairItems]

theorem itemsOfReqs_recvReqs_cons (e : WorkerEvent) (es : List WorkerEvent) :
    itemsOfReqs (recvReqs (e :: es)) = eventItems e ++ itemsOfReqs (recvReqs es) := by
  cases e <;> simp [recvReqs, itemsOfReqs, eventItems]

/-- Conservation invariant of the worker loop: along a trace of normal
events, the items emitted in capability calls plus the items still
batched are a permutation of the items initially batched plus the items
of all delivered requests. -/
theorem runWorkerAux_conservation (batchSize : Nat) (svc : DeleteService)
    (es : List WorkerEvent) (h : ∀ e ∈ es, isNormal e = true) (n : Nat)
    (s : WorkerState) :
    List.Perm
      (pairItems (runWorkerAux batchSize svc es n s).1 ++
        pairItems (runWorkerAux batchSize svc es n s).2.batch)
      (pairItems s.batch ++ itemsOfReqs (recvReqs es)) := by
  induction es generalizing n s with
  | nil => simp [runWorkerAux, recvReqs, itemsOfReqs, pairItems]
  | cons e es ih =>
      have hnorm : isNormal e = true := h e (List.mem_cons_self e es)
      have hes : ∀ x ∈ es, isNormal x = true :=
        fun x hx => h x (List.mem_cons_of_mem e hx)
      have hex := workerStep_not_exited batchSize svc n s e hnorm
      simp only [runWorkerAux, hex, Bool.false_eq_true, if_false,
        pairItems_append, itemsOfReqs_recvReqs_cons]
      have step := workerStep_conservation batchSize svc n s e hnorm
      have tail := ih hes (n + 1) (workerStep batchSize svc n s e).state
      rw [List.append_assoc]
      refine List.Perm.trans (List.Perm.append_left _ tail) ?_
      rw [← List.append_assoc, ← List.append_assoc]
      exact List.Perm.append_right _ step

/-- `itemsOfReqs` maps permutations of request lists to permutations of
their item lists. -/
theorem itemsOfReqs_perm {l₁ l₂ : List DeleteRequest} (h : List.Perm l₁ l₂) :
    List.Perm (itemsOfReqs l₁) (itemsOfReqs l₂) := by
  induction h with
  | nil => exact List.Perm.refl _
  | cons x _ ih => exact List.Perm.append_left x.urlIDs ih
  | swap x y l =>
      show List.Perm (y.urlIDs ++ (x.urlIDs ++ itemsOfReqs l))
        (x.urlIDs ++ (y.urlIDs ++ itemsOfReqs l))
      rw [← List.append_assoc, ← List.append_assoc]
      exact List.Perm.append_right _ (List.perm_append_comm)
  | trans _ _ ih₁ ih₂ => exact ih₁.trans ih₂

theorem itemsOfReqs_append (a b : List DeleteRequest) :
    itemsOfReqs (a ++ b) = itemsOfReqs a ++ itemsOfReqs b := by
  induction a with
  | nil => rfl
  | cons r rs ih => simp [itemsOfReqs, ih]

/-- One worker over a normal trace that leaves its batch drained emits
exactly (a permutation of) the items of the requests it received. -/
theorem runWorker_conservation (batchSize : Nat) (svc : DeleteService)
    (t : List WorkerEvent) (hnorm : ∀ e ∈ t, isNormal e = true)
    (hdrain : (runWorker batchSize svc t).2.batch = []) :
    List.Perm (pairItems (runWorker batchSize svc t).1)
      (itemsOfReqs (recvReqs t)) := by
  have h := runWorkerAux_conservation batchSize svc t hnorm 0 WorkerState.init
  unfold runWorker at hdrain ⊢
  rw [hdrain] at h
  simpa [WorkerState.init, pairItems] using h

theorem allCalls_conservation (batchSize : Nat) (svc : DeleteService)
    (ts : List (List WorkerEvent))
    (hnorm : ∀ t ∈ ts, ∀ e ∈ t, isNormal e = true)
    (hdrain : ∀ t ∈ ts, (runWorker batchSize svc t).2.batch = []) :
    List.Perm (pairItems (allCalls batchSize svc ts))
      (itemsOfReqs (allRecv ts)) := by
  induction ts with
  | nil => simp [allCalls, allRecv, pairItems, itemsOfReqs]
  | cons t ts ih =>
      simp only [allCalls, allRecv, pairItems_append, itemsOfReqs_append]
      exact List.Perm.append
        (runWorker_conservation batchSize svc t
          (hnorm t (List.mem_cons_self t ts))
          (hdrain t (List.mem_cons_self t ts)))
        (ih (fun x hx => hnorm x (List.mem_cons_of_mem t hx))
            (fun x hx => hdrain x (List.mem_cons_of_mem t hx)))

/-- C1 — Conservation: over any collection of worker traces made of normal
(non-shutdown) events, if every worker ends with a drained batch and the
requests delivered across all traces are, as a multiset, exactly the
submitted requests, then the multiset of all items passed to the deletion
capability across all flush calls of all workers equals the multiset of
all submitted items: nothing is lost, nothing is duplicated. -/
theorem conservation_submitted_items (batchSize : Nat) (svc : DeleteService)
    (traces : List (List WorkerEvent)) (subs : List DeleteRequest)
    (hnorm : ∀ t ∈ traces, ∀ e ∈ t, isNormal e = true)
    (hdrain : ∀ t ∈ traces, (runWorker batchSize svc t).2.batch = [])
    (hdeliver : (↑(allRecv traces) : Multiset DeleteRequest) = ↑subs) :
    (↑(pairItems (allCalls batchSize svc traces)) : Multiset String) =
      ↑(itemsOfReqs subs) := by
  rw [Multiset.coe_eq_coe] at hdeliver ⊢
  exact List.Perm.trans
    (allCalls_conservation batchSize svc traces hnorm hdrain)
    (itemsOfReqs_perm hdeliver)

/-- Witness for C1 at a concrete input: two workers, one flushing by idle
timer, one by reaching the batch-size threshold 3; the delivered requests
are a permutation of the submitted ones. -/
theorem conservation_submitted_items_witness :
    (↑(pairItems (allCalls 3 (fun _ _ => Except.ok ())
        [[WorkerEvent.recv ⟨"u1", ["a", "b"]⟩, WorkerEvent.timerFire],
         [WorkerEvent.recv ⟨"u2", ["c"]⟩,
          WorkerEvent.recv ⟨"u2", ["d", "e"]⟩]])) : Multiset String) =
      ↑(itemsOfReqs [⟨"u2", ["c"]⟩, ⟨"u1", ["a", "b"]⟩, ⟨"u2", ["d", "e"]⟩]) :=
  conservation_submitted_items 3 (fun _ _ => Except.ok ()) _ _
    (by decide) (by decide) (by decide)

/-- C2 — refuted by the code: after `Shutdown` has closed the request
channel but the pool context is not cancelled (true while the cooperative
drain is in progress and forever after a graceful drain, since the code
never cancels the context in that path), the only ready `select` case in
`Submit` is the send on the closed channel, so `Submit` panics
("send on closed channel") instead of returning a cancellation error. -/
theorem submit_after_graceful_shutdown_panics (cap : Nat)
    (q : List DeleteRequest) (req : DeleteRequest) :
    submitResults false true cap q req = [(SubmitOutcome.panicked, q)] := by
  simp [submitResults]

/-- C3 — refuted by the code: if the workers do not drain by the deadline
and the deletion capability stalls forever (so the final flush attempt
after `p.cancel()` never terminates), `Shutdown` blocks on `<-done`
with no further bound and never returns, instead of returning a
deadline-exceeded error within approximately the deadline. -/
theorem shutdown_stalled_capability_never_returns :
    Shutdown false false PoolState.running = none := rfl

/-- C9 — Shutdown is effectively once: any `Shutdown` call that returns
leaves the `sync.Once` consumed, and in that state every subsequent
`Shutdown` call — whatever its own deadline outcome parameters, and
whether or not the first call returned a deadline-exceeded error —
changes nothing (queue not re-closed, no waiting, no cancellation:
the pool state is returned untouched) and reports no error. -/
theorem shutdown_effectively_once (d₁ e₁ d₂ e₂ : Bool) (p : PoolState)
    (r : Option ShutdownError × PoolState)
    (hfirst : Shutdown d₁ e₁ p = some r) :
    Shutdown d₂ e₂ r.2 = some (none, r.2) := by
  have honce : r.2.onceDone = true := by
    unfold Shutdown at hfirst
    by_cases hp : p.onceDone
    · simp [hp] at hfirst
      rw [← hfirst]
      exact hp
    · simp [hp] at hfirst
      cases hd : d₁ <;> simp [hd] at hfirst
      · cases he : e₁ <;> simp [he] at hfirst
        rw [← hfirst]
      · rw [← hfirst]
  unfold Shutdown
  simp [honce]

/-- Witness for C9: a first forced shutdown from the running state returns
`DeadlineExceeded`; the second call is a no-op returning no error. -/
theorem shutdown_effectively_once_witness :
    Shutdown true true
        (⟨true, true, true⟩ : PoolState) = some (none, ⟨true, true, true⟩) :=
  shutdown_effectively_once false true true true PoolState.running
    (some ShutdownError.deadlineExceeded, ⟨true, true, true⟩) rfl

theorem processBatch_eq_of_ne (svc : DeleteService) (s : WorkerState)
    (h : s.batch ≠ []) :
    processBatch svc s = (s.batch, { s with batch := [], totalURLs := 0 }) := by
  unfold processBatch
  simp [List.isEmpty_iff, h, flushKeys_eq]

/-- C4 — post-flush invariant and dead re-arm branch: (i) in any worker
state satisfying the loop invariant "an empty batch has a zero count",
after `processBatch` returns the batch is empty and `totalURLs = 0`;
(ii) the source's loop iteration is extensionally equal to the spec's
variant without the re-arm branch — since a flush always empties the
batch map, the branch re-arming the idle timer after a count-triggered
flush can never be taken. -/
theorem post_flush_empty_and_rearm_branch_dead :
    (∀ (svc : DeleteService) (s : WorkerState),
      (s.batch = [] → s.totalURLs = 0) →
      (processBatch svc s).2.batch = [] ∧ (processBatch svc s).2.totalURLs = 0) ∧
    (∀ (batchSize : Nat) (svc : DeleteService) (now : Nat) (s : WorkerState)
      (e : WorkerEvent),
      workerStep batchSize svc now s e =
        workerStepSpecNoRearm batchSize svc now s e) := by
  constructor
  · intro svc s hinv
    by_cases hb : s.batch = []
    · simp [processBatch, hb, hinv hb]
    · exact processBatch_batch_of_ne svc s hb
  · intro batchSize svc now s e
    cases e with
    | ctxDone => rfl
    | chanClosed => rfl
    | timerFire => rfl
    | recv req =>
        simp only [workerStep, workerStepSpecNoRearm]
        have hne : ({ s with batch := mergeReq s.batch req.userID req.urlIDs, totalURLs := s.totalURLs + req.urlIDs.length } : WorkerState).batch ≠ [] :=
          mergeReq_ne_nil s.batch req.userID req.urlIDs
        rw [processBatch_eq_of_ne svc _ hne]
        split
        · simp
        · rfl

/-- Witness for C4 at a concrete flush. -/
theorem post_flush_empty_witness :
    (processBatch (fun _ _ => Except.ok ())
      (⟨[("u", ["a"])], 1, none⟩ : WorkerState)).2.batch = [] ∧
    (processBatch (fun _ _ => Except.ok ())
      (⟨[("u", ["a"])], 1, none⟩ : WorkerState)).2.totalURLs = 0 :=
  post_flush_empty_and_rearm_branch_dead.1 (fun _ _ => Except.ok ())
    ⟨[("u", ["a"])], 1, none⟩ (by decide)

/-- C5 — count-triggered flush: when merging a dequeued request makes the
running count reach or exceed `batchSize`, that very iteration flushes the
merged batch (one capability call per batched key, in batch order) and
ends with an empty batch, a zero count and the idle timer stopped — the
worker does not wait for the timer. -/
theorem count_triggered_flush (batchSize : Nat) (svc : DeleteService)
    (now : Nat) (s : WorkerState) (req : DeleteRequest)
    (h : s.totalURLs + req.urlIDs.length ≥ batchSize) :
    workerStep batchSize svc now s (WorkerEvent.recv req) =
      ⟨mergeReq s.batch req.userID req.urlIDs, ⟨[], 0, none⟩, false⟩ := by
  have hne : ({ s with batch := mergeReq s.batch req.userID req.urlIDs, totalURLs := s.totalURLs + req.urlIDs.length } : WorkerState).batch ≠ [] :=
    mergeReq_ne_nil s.batch req.userID req.urlIDs
  simp only [workerStep]
  rw [processBatch_eq_of_ne svc _ hne]
  split
  · next hcond => simp [stopTimer]
  · next hcond => exact absurd h hcond

/-- Witness for C5: a request of two URL ids meets the threshold 2. -/
theorem count_triggered_flush_witness :
    workerStep 2 (fun _ _ => Except.ok ()) 4 WorkerState.init
        (WorkerEvent.recv ⟨"u", ["a", "b"]⟩) =
      ⟨[("u", ["a", "b"])], ⟨[], 0, none⟩, false⟩ :=
  count_triggered_flush 2 (fun _ _ => Except.ok ()) 4 WorkerState.init
    ⟨"u", ["a", "b"]⟩ (by decide)

/-- C7 — independent per-key flush failure: a flush of a non-empty batch
calls the capability once per batched key, in batch order, whatever the
capability answers — the sequence of calls is the whole batch and is the
same under any two capabilities (errors are logged and swallowed, abort
nothing and trigger no retry) — and afterwards the batch is cleared and
the count zeroed unconditionally. -/
theorem flush_failures_independent (svc altSvc : DeleteService)
    (s : WorkerState) (h : s.batch ≠ []) :
    (processBatch svc s).1 = s.batch ∧
    (processBatch svc s).1 = (processBatch altSvc s).1 ∧
    (processBatch svc s).2.batch = [] ∧
    (processBatch svc s).2.totalURLs = 0 := by
  rw [processBatch_eq_of_ne svc s h, processBatch_eq_of_ne altSvc s h]
  simp

/-- Witness for C7: a capability failing on every key makes exactly the
same calls and leaves the same cleared state as one that always
succeeds. -/
theorem flush_failures_independent_witness :
    (processBatch (fun _ _ => Except.error "db down")
        (⟨[("k1", ["a"]), ("k2", ["b"])], 2, none⟩ : WorkerState)).1 =
      [("k1", ["a"]), ("k2", ["b"])] ∧
    (processBatch (fun _ _ => Except.error "db down")
        (⟨[("k1", ["a"]), ("k2", ["b"])], 2, none⟩ : WorkerState)).1 =
      (processBatch (fun _ _ => Except.ok ())
        (⟨[("k1", ["a"]), ("k2", ["b"])], 2, none⟩ : WorkerState)).1 ∧
    (processBatch (fun _ _ => Except.error "db down")
        (⟨[("k1", ["a"]), ("k2", ["b"])], 2, none⟩ : WorkerState)).2.batch = [] ∧
    (processBatch (fun _ _ => Except.error "db down")
        (⟨[("k1", ["a"]), ("k2", ["b"])], 2, none⟩ : WorkerState)).2.totalURLs = 0 :=
  flush_failures_independent (fun _ _ => Except.error "db down")
    (fun _ _ => Except.ok ()) ⟨[("k1", ["a"]), ("k2", ["b"])], 2, none⟩
    (by decide)

theorem lookupKey_mergeReq (b : List (String × List String)) (k : String)
    (items : List String) (q : String) :
    lookupKey (mergeReq b k items) q =
      if q = k then some ((lookupKey b k).getD [] ++ items)
      else lookupKey b q := by
  induction b with
  | nil =>
      by_cases h : q = k
      · simp [mergeReq, lookupKey, h]
      · have h' : ¬ k = q := fun hh => h hh.symm
        simp [mergeReq, lookupKey, h, h']
  | cons p rest ih =>
      obtain ⟨k', l⟩ := p
      by_cases h : k' = k
      · subst h
        by_cases hq : q = k'
        · subst hq
          simp [mergeReq, lookupKey]
        · have h' : ¬ k' = q := fun hh => hq hh.symm
          simp [mergeReq, lookupKey, hq, h']
      · by_cases hq : k' = q
        · subst hq
          simp [mergeReq, lookupKey, h]
        · simp [mergeReq, lookupKey, h, hq, ih]

theorem lookupKey_mergeAllFrom_getD (reqs : List DeleteRequest)
    (b : List (String × List String)) (k : String) :
    (lookupKey (mergeAllFrom b reqs) k).getD [] =
      (lookupKey b k).getD [] ++ keyItems reqs k := by
  induction reqs generalizing b with
  | nil => simp [mergeAllFrom, keyItems]
  | cons r rs ih =>
      simp only [mergeAllFrom, keyItems]
      rw [ih, lookupKey_mergeReq]
      by_cases h : k = r.userID
      · subst h
        simp [List.append_assoc]
      · have h' : ¬ r.userID = k := fun hh => h hh.symm
        simp [h, h']

theorem lookupKey_eq_none_iff (b : List (String × List String)) (k : String) :
    lookupKey b k = none ↔ ∀ p ∈ b, p.1 ≠ k := by
  induction b with
  | nil => simp [lookupKey]
  | cons p rest ih =>
      obtain ⟨k', l⟩ := p
      by_cases h : k' = k <;> simp [lookupKey, h, ih]

theorem filter_eq_nil_of_lookup_none (b : List (String × List String))
    (k : String) (h : lookupKey b k = none) :
    b.filter (fun p => p.1 == k) = [] := by
  induction b with
  | nil => rfl
  | cons p rest ih =>
      obtain ⟨k', l⟩ := p
      simp only [lookupKey] at h
      by_cases hk : k' = k
      · simp [hk] at h
      · rw [if_neg hk] at h
        simp [List.filter_cons, beq_iff_eq, hk, ih h]

theorem keys_mergeReq (b : List (String × List String)) (k : String)
    (items : List String) :
    (mergeReq b k items).map Prod.fst =
      if lookupKey b k = none then b.map Prod.fst ++ [k]
      else b.map Prod.fst := by
  induction b with
  | nil => simp [mergeReq, lookupKey]
  | cons p rest ih =>
      obtain ⟨k', l⟩ := p
      by_cases h : k' = k
      · simp [mergeReq, lookupKey, h]
      · by_cases hrest : lookupKey rest k = none <;>
          simp [mergeReq, lookupKey, h, ih, hrest]

theorem nodup_keys_mergeReq (b : List (String × List String)) (k : String)
    (items : List String) (h : (b.map Prod.fst).Nodup) :
    ((mergeReq b k items).map Prod.fst).Nodup := by
  rw [keys_mergeReq]
  by_cases hl : lookupKey b k = none
  · rw [if_pos hl]
    have hk : k ∉ b.map Prod.fst := by
      intro hmem
      obtain ⟨p, hp, hpk⟩ := List.mem_map.mp hmem
      exact (lookupKey_eq_none_iff b k).mp hl p hp hpk
    simp [List.nodup_append, h, hk]
  · simpa [hl] using h

theorem nodup_keys_mergeAllFrom (reqs : List DeleteRequest)
    (b : List (String × List String)) (h : (b.map Prod.fst).Nodup) :
    ((mergeAllFrom b reqs).map Prod.fst).Nodup := by
  induction reqs generalizing b with
  | nil => simpa [mergeAllFrom] using h
  | cons r rs ih =>
      exact ih (mergeReq b r.userID r.urlIDs)
        (nodup_keys_mergeReq b r.userID r.urlIDs h)

theorem filter_singleton_of_nodup (b : List (String × List String))
    (k : String) (l : List String) (hnd : (b.map Prod.fst).Nodup)
    (hl : lookupKey b k = some l) :
    b.filter (fun p => p.1 == k) = [(k, l)] := by
  induction b with
  | nil => simp [lookupKey] at hl
  | cons p rest ih =>
      obtain ⟨k', a⟩ := p
      simp only [List.map_cons, List.nodup_cons] at hnd
      simp only [lookupKey] at hl
      by_cases hk : k' = k
      · subst hk
        rw [if_pos rfl] at hl
        injection hl with hl
        subst hl
        have hrest : lookupKey rest k' = none := by
          rw [lookupKey_eq_none_iff]
          intro q hq hqk
          exact absurd (List.mem_map.mpr ⟨q, hq, hqk⟩) hnd.1
        simp [List.filter_cons, filter_eq_nil_of_lookup_none rest k' hrest]
      · rw [if_neg hk] at hl
        simp [List.filter_cons, beq_iff_eq, hk, ih hnd.2 hl]

/-- C6 — per-key order preservation: if key `k` is present in the batch a
worker accumulated by merging the requests `reqs` (in arrival order) into
an empty batch, then the flush makes exactly one capability call for `k`,
and the items of that single call are the concatenation, in arrival
order, of the item lists of the requests for `k` merged since the
previous flush. -/
theorem per_key_order_preserved (svc : DeleteService)
    (reqs : List DeleteRequest) (k : String) (n : Nat) (tm : Option Nat)
    (hk : lookupKey (mergeAll reqs) k ≠ none) :
    (processBatch svc (⟨mergeAll reqs, n, tm⟩ : WorkerState)).1.filter
        (fun c => c.1 == k) = [(k, keyItems reqs k)] := by
  have hgetD : (lookupKey (mergeAll reqs) k).getD [] = keyItems reqs k := by
    have h := lookupKey_mergeAllFrom_getD reqs [] k
    simpa [mergeAll, lookupKey] using h
  have hlk : lookupKey (mergeAll reqs) k = some (keyItems reqs k) := by
    cases hlo : lookupKey (mergeAll reqs) k with
    | none => exact absurd hlo hk
    | some l =>
        rw [hlo] at hgetD
        simp at hgetD
        rw [hgetD]
  have hne : mergeAll reqs ≠ [] := by
    intro h0
    rw [h0] at hk
    exact hk rfl
  have hb : (⟨mergeAll reqs, n, tm⟩ : WorkerState).batch ≠ [] := hne
  rw [processBatch_eq_of_ne svc _ hb]
  exact filter_singleton_of_nodup (mergeAll reqs) k (keyItems reqs k)
    (nodup_keys_mergeAllFrom reqs [] (by simp)) hlk

/-- Witness for C6: requests for keys u, v, u again; the single flush call
for u carries a's then b's items in arrival order. -/
theorem per_key_order_preserved_witness :
    (processBatch (fun _ _ => Except.ok ())
        (⟨mergeAll [⟨"u", ["a"]⟩, ⟨"v", ["x"]⟩, ⟨"u", ["b"]⟩], 3, none⟩ :
          WorkerState)).1.filter (fun c => c.1 == "u") =
      [("u", keyItems [⟨"u", ["a"]⟩, ⟨"v", ["x"]⟩, ⟨"u", ["b"]⟩] "u")] :=
  per_key_order_preserved (fun _ _ => Except.ok ())
    [⟨"u", ["a"]⟩, ⟨"v", ["x"]⟩, ⟨"u", ["b"]⟩] "u" 3 none (by decide)

/-- C8 — timer arming discipline of a receive iteration: the idle timer is
armed, at the current instant, exactly when the merge takes the batch from
empty to non-empty and no count-triggered flush occurs; a merge into an
already non-empty batch that stays below the threshold changes only the
batch and the count — the timer field, and with it the original arming
instant, is untouched (not started, not reset, not stopped), so the timer
keeps bounding latency from the first item's arrival, not the most
recent one's; and a count-triggered flush leaves the timer stopped. -/
theorem timer_arming_discipline (batchSize : Nat) (svc : DeleteService)
    (now : Nat) (s : WorkerState) (req : DeleteRequest) :
    (s.batch = [] → s.totalURLs + req.urlIDs.length < batchSize →
      workerStep batchSize svc now s (WorkerEvent.recv req) =
        ⟨[], ⟨mergeReq s.batch req.userID req.urlIDs,
              s.totalURLs + req.urlIDs.length, some now⟩, false⟩) ∧
    (s.batch ≠ [] → s.totalURLs + req.urlIDs.length < batchSize →
      workerStep batchSize svc now s (WorkerEvent.recv req) =
        ⟨[], ⟨mergeReq s.batch req.userID req.urlIDs,
              s.totalURLs + req.urlIDs.length, s.timer⟩, false⟩) ∧
    (s.totalURLs + req.urlIDs.length ≥ batchSize →
      (workerStep batchSize svc now s (WorkerEvent.recv req)).state.timer =
        none) := by
  refine ⟨fun hb hlt => ?_, fun hb hlt => ?_, fun hge => ?_⟩
  · have hnot : ¬ (s.totalURLs + req.urlIDs.length ≥ batchSize) := by omega
    simp [workerStep, hb, hnot, startOrResetTimer]
  · have hnot : ¬ (s.totalURLs + req.urlIDs.length ≥ batchSize) := by omega
    simp [workerStep, hnot, List.isEmpty_iff, hb]
  · have hne : ({ s with batch := mergeReq s.batch req.userID req.urlIDs, totalURLs := s.totalURLs + req.urlIDs.length } : WorkerState).batch ≠ [] :=
      mergeReq_ne_nil s.batch req.userID req.urlIDs
    simp only [workerStep]
    rw [processBatch_eq_of_ne svc _ hne]
    split
    · next hcond => simp [stopTimer]
    · next hcond => exact absurd hge hcond

/-- Witness for C8: below threshold 10, a first request arriving at
instant 7 into an empty batch arms the timer at 7. -/
theorem timer_arming_discipline_witness :
    workerStep 10 (fun _ _ => Except.ok ()) 7 WorkerState.init
        (WorkerEvent.recv ⟨"u", ["a"]⟩) =
      ⟨[], ⟨[("u", ["a"])], 1, some 7⟩, false⟩ :=
  (timer_arming_discipline 10 (fun _ _ => Except.ok ()) 7 WorkerState.init
    ⟨"u", ["a"]⟩).1 rfl (by decide)

/-- C10 — empty-items request: on a running pool (context live, channel
open, buffer space free) `Submit(k, [])` deterministically succeeds and
enqueues the request; a worker merging it into an empty batch (whose
count is 0, per the loop invariant) obtains the non-empty batch
`[(k, [])]` with the idle timer armed, the count still 0 and no
count-triggered flush under any positive threshold; the later flush of
that batch passes `k` with an empty item list to the capability. -/
theorem empty_items_request (batchSize : Nat) (svc : DeleteService)
    (now : Nat) (k : String) (queueCap : Nat) (q : List DeleteRequest)
    (tm : Option Nat) (hcap : q.length < queueCap) (hpos : 0 < batchSize) :
    submitResults false false queueCap q ⟨k, []⟩ =
      [(SubmitOutcome.queued, q ++ [⟨k, []⟩])] ∧
    workerStep batchSize svc now (⟨[], 0, tm⟩ : WorkerState)
        (WorkerEvent.recv ⟨k, []⟩) =
      ⟨[], ⟨[(k, [])], 0, some now⟩, false⟩ ∧
    processBatch svc (⟨[(k, [])], 0, some now⟩ : WorkerState) =
      ([(k, [])], ⟨[], 0, some now⟩) := by
  refine ⟨?_, ?_, ?_⟩
  · simp [submitResults, hcap]
  · have h0 : batchSize ≠ 0 := by omega
    simp [workerStep, mergeReq, startOrResetTimer, h0]
  · rw [processBatch_eq_of_ne svc _ (by simp)]

/-- Witness for C10 at a concrete input. -/
theorem empty_items_request_witness :
    submitResults false false 100 [] ⟨"u", []⟩ =
      [(SubmitOutcome.queued, [] ++ [⟨"u", []⟩])] ∧
    workerStep 10 (fun _ _ => Except.ok ()) 3 (⟨[], 0, none⟩ : WorkerState)
        (WorkerEvent.recv ⟨"u", []⟩) =
      ⟨[], ⟨[("u", [])], 0, some 3⟩, false⟩ ∧
    processBatch (fun _ _ => Except.ok ())
        (⟨[("u", [])], 0, some 3⟩ : WorkerState) =
      ([("u", [])], ⟨[], 0, some 3⟩) :=
  empty_items_request 10 (fun _ _ => Except.ok ()) 3 "u" 100 [] none
    (by decide) (by decide)

end DeleteWorker
